import Mathlib

/-!
# Verification of the position-based rigid-body dynamics pipeline spec

The repository excerpt contains the positional pipeline's test suite
(brax/positional/pipeline_test.py) and the evolution-strategy network factory
(brax/training/agents/es/networks.py).  The positional solver itself
(pipeline.init / pipeline.step and the kinematics, center-of-mass and joint
modules it calls) is not part of the excerpt, so those components are modelled
here directly from the specification text, as one-dimensional (per-axis)
rational-arithmetic instances of the algorithm the spec describes:

1. free-motion semi-implicit Euler integration,
2. a fixed-iteration Gauss-Seidel constraint-projection loop that only moves
   positions,
3. velocity reconciliation: new velocity = (corrected pose - pose before
   integration) / timestep.

The evolution-strategy policy factory is embedded from the source file itself.
-/

/-! ## Model A: a single prismatic degree of freedom with a hard upper limit

Used for the inelastic limit-rebound property.  The test
(PipelineTest.test_3d_sliding_joint) launches a capsule along three prismatic
degrees of freedom at 2.5 m/s into the joint limits and asserts that the
rebound velocity is strictly below the incoming speed but still beyond
1.18 m/s in the opposing direction. -/

structure LimState where
  pos : ℚ
  vel : ℚ
  ang : ℚ
deriving DecidableEq

/-- Modelled from the spec: the limit-constraint pass of the constraint
projection loop (missing from src, only its tests are present), for one
prismatic degree of freedom whose hard upper bound sits at 0.  Each iteration
detects a violation of the bound and pushes the link back toward it by the
limit-stiffness fraction of the violation; positions only are nudged. -/
def limitProject (stiffness : ℚ) : ℕ → ℚ → ℚ
  | 0, pred => pred
  | n + 1, pred =>
      limitProject stiffness n (if 0 < pred then pred - stiffness * pred else pred)

/-- Modelled from the spec: one positional-solver step for the single limited
prismatic degree of freedom (the solver code is missing from src): free-motion
integration of the predicted pose, the fixed-iteration limit projection, then
velocity reconciliation as (final pose - pose before integration) / timestep.
There is no gravity component along the slide axis and no torque, so the
orthogonal (angular) component is carried through unchanged. -/
def limitStep (dt stiffness : ℚ) (iters : ℕ) (s : LimState) : LimState :=
  let pred := s.pos + s.vel * dt
  let corrected := limitProject stiffness iters pred
  { pos := corrected, vel := (corrected - s.pos) / dt, ang := s.ang }

/-- Modelled from the spec: iterated positional-solver steps of the limited
prismatic degree of freedom, from a given launch state. -/
def limitRun (dt stiffness : ℚ) (iters : ℕ) : ℕ → LimState → LimState
  | 0, s => s
  | n + 1, s => limitRun dt stiffness iters n (limitStep dt stiffness iters s)

/-- The final state of the limit-rebound scenario of the test suite: a body
launched exactly at the hard limit with incoming speed v0, timestep 1/1000,
limit stiffness 1/5, one projection iteration per step, simulated for 10
steps (the rebound completes after 7 of them). -/
def c1Final (v0 : ℚ) : LimState :=
  limitRun (1 / 1000) (1 / 5) 1 10 { pos := 0, vel := v0, ang := 0 }

/-! ## Model B: the double pendulum compared against the oracle pipeline

Used for the trajectory-agreement property (PipelineTest.test_pendulum): the
positional solver and the reduced-coordinate oracle simulate the same
double pendulum from identical initial conditions and the world-frame
positions must stay within 2e-2 of each other.  The fixture is not in the
excerpt; the modelled scene is a two-link pendulum hanging at its stable
equilibrium (each link of unit length, anchored at the origin), so the motion
stays on the vertical axis, which the model tracks. -/

def pdt : ℚ := 1 / 2000

def pg : ℚ := 49 / 5

def pL1 : ℚ := 1

def pL2 : ℚ := 1

def pIters : ℕ := 500

def pE : ℚ := (1 / 2) ^ 500

def pA : ℚ := 2 * pE * pg * pdt ^ 2

def pV : ℚ := 2 * pA / pdt

structure PenState where
  z1 : ℚ
  z2 : ℚ
  v1 : ℚ
  v2 : ℚ

/-- Modelled from the spec: one Gauss-Seidel pass of the joint-constraint
projection for the two pendulum joints (the joint module is missing from src).
Joint 1 (world anchor to link 1) projects link 1 onto its socket — the world
side has infinite mass, so the link takes the whole correction.  Joint 2
(link 1 to link 2) splits its positional deviation evenly between the two
equal-mass links, in proportion to inverse mass. -/
def penIter (p : ℚ × ℚ) : ℚ × ℚ :=
  let q1 := -pL1
  let e2 := (p.2 - q1) + pL2
  (q1 + e2 / 2, p.2 - e2 / 2)

/-- Modelled from the spec: the fixed-iteration constraint-projection loop of
the positional solver, iterating the Gauss-Seidel pass. -/
def penLoop : ℕ → ℚ × ℚ → ℚ × ℚ
  | 0, p => p
  | n + 1, p => penLoop n (penIter p)

/-- Modelled from the spec: one positional-solver step for the vertical axis
of the double pendulum: semi-implicit Euler free motion under gravity, the
fixed-iteration projection loop, then velocity reconciliation as
(corrected pose - pose before integration) / timestep, with zero damping
(the test zeroes constraint_vel_damping). -/
def penStep (s : PenState) : PenState :=
  let w1 := s.v1 - pg * pdt
  let w2 := s.v2 - pg * pdt
  let c := penLoop pIters (s.z1 + w1 * pdt, s.z2 + w2 * pdt)
  { z1 := c.1, z2 := c.2, v1 := (c.1 - s.z1) / pdt, v2 := (c.2 - s.z2) / pdt }

/-- Modelled from the spec: the positional-solver trajectory of the double
pendulum started, like the test does, from the initial generalized
configuration with zero velocity (the stable vertical equilibrium). -/
def penRun : ℕ → PenState
  | 0 => { z1 := -pL1, z2 := -(pL1 + pL2), v1 := 0, v2 := 0 }
  | n + 1 => penStep (penRun n)

/-- Modelled from the spec: the reduced-coordinate oracle pipeline, a black
box whose internals are out of scope; it solves the exact equations of
motion, and at the stable equilibrium with zero initial velocity the exact
trajectory is constant, so its world-frame link positions are the equilibrium
positions at every step. -/
def oracleRun (_ : ℕ) : ℚ × ℚ := (-pL1, -(pL1 + pL2))

/-- The drift of one solver state relative to the equilibrium, after the
projection loop: the common corrected offset of both links. -/
def penD (s : PenState) : ℚ :=
  pE * (s.z2 + (pL1 + pL2) + (s.v2 - pg * pdt) * pdt)

/-! ## Model C: a capsule sliding on a frictional ground plane

Used for the settling property (PipelineTest.test_sliding_capsule): a capsule
of radius 0.25 resting on the ground is launched horizontally at 5 m/s; it
must decelerate monotonically to near-zero velocity, come to rest at the
height fixed by the contact geometry (the capsule radius), and keep its
orientation. -/

def cdt : ℚ := 1 / 1000

def cg : ℚ := 49 / 5

def crad : ℚ := 1 / 4

def collideScale : ℚ := 1 / 4

def cFric : ℚ := 9 / 10

structure CapState where
  px : ℚ
  pz : ℚ
  vx : ℚ
  vz : ℚ
  rot : ℚ
  angvel : ℚ

/-- Modelled from the spec: the contact-constraint pass of the projection
loop (the collision module is missing from src): an interpenetrating pose
(below the resting height given by the capsule radius) receives a separating
displacement scaled by collide_scale; positions only are nudged. -/
def capProject (z : ℚ) : ℚ :=
  if z < crad then z + collideScale * (crad - z) else z

/-- Modelled from the spec: one positional-solver step of the sliding capsule
on the plane: semi-implicit Euler free motion under gravity, contact
projection of the vertical pose, then velocity reconciliation.  Friction and
restitution are modeled as reduced velocity retention after separation, as
the spec states: on a contact step the tangential velocity is retained only
up to the friction factor and the normal velocity is not retained at all
(resting contact, zero restitution).  No torque acts, so the angular velocity
is carried through and the orientation integrates it. -/
def capStep (s : CapState) : CapState :=
  let pxp := s.px + s.vx * cdt
  let pzp := s.pz + (s.vz - cg * cdt) * cdt
  { px := pxp,
    pz := capProject pzp,
    vx := if pzp < crad then cFric * ((pxp - s.px) / cdt) else (pxp - s.px) / cdt,
    vz := if pzp < crad then 0 else (capProject pzp - s.pz) / cdt,
    rot := s.rot + s.angvel * cdt,
    angvel := s.angvel }

/-- Modelled from the spec: the trajectory of the sliding-capsule scenario:
resting height (the capsule radius), horizontal launch velocity 5, no spin. -/
def capRun : ℕ → CapState
  | 0 => { px := 0, pz := crad, vx := 5, vz := 0, rot := 0, angvel := 0 }
  | n + 1 => capStep (capRun n)

/-! ## Model D: the prismatic chain - descriptor validation, init, step

A kinematic chain of links sliding along one axis, the shape of the
triple_prismatic fixture.  This model carries the entry-point structure the
remaining pipeline claims are about: validation at init, the generalized to
world-frame conversion and its inverse, the fixed-iteration projection loop
inside step, and the purity of both entry points. -/

inductive ConfigError where
  | lengthMismatch : ConfigError
  | badTopology : ConfigError
  | nonPositiveMass : ConfigError
deriving DecidableEq

structure ChainSys where
  offsets : List ℚ
  masses : List ℚ
  parents : List (Option ℕ)
  limits : List ℚ
  dt : ℚ
  stiffness : ℚ
  solverIterations : ℕ
deriving DecidableEq

structure ChainState where
  x : List ℚ
  xd : List ℚ
  q : List ℚ
  qd : List ℚ
deriving DecidableEq

/-- The descriptor's degree-of-freedom count: one sliding coordinate per
link of the chain. -/
def dofCount (sys : ChainSys) : ℕ := sys.offsets.length

/-- Modelled from the spec: the topology check of the System Descriptor
(the loader and descriptor code are missing from src): every link's parent
index must precede the link (topological order), root links have no parent;
a dangling parent index fails the check. -/
def topoOk : ℕ → List (Option ℕ) → Bool
  | _, [] => true
  | i, none :: rest => topoOk (i + 1) rest
  | i, some p :: rest => decide (p < i) && topoOk (i + 1) rest

/-- Modelled from the spec: the mass check of the System Descriptor: every
link mass must be positive. -/
def massesOk (ms : List ℚ) : Bool := ms.all fun m => decide (0 < m)

/-- Modelled from the spec: forward kinematics of the prismatic chain (the
kinematics module is missing from src): each link's world position is its
parent's position plus the joint offset plus the generalized coordinate. -/
def forwardKinAux (parent : ℚ) : List ℚ → List ℚ → List ℚ
  | o :: os, v :: vs => (parent + o + v) :: forwardKinAux (parent + o + v) os vs
  | _, _ => []

/-- Modelled from the spec: forward velocity kinematics of the prismatic
chain: each link's world velocity accumulates the generalized velocities
along the chain. -/
def cumSum (c : ℚ) : List ℚ → List ℚ
  | [] => []
  | v :: vs => (c + v) :: cumSum (c + v) vs

/-- Modelled from the spec: the inverse kinematics of the prismatic chain:
re-derives each generalized coordinate from consecutive world positions. -/
def invKinAux (parent : ℚ) : List ℚ → List ℚ → List ℚ
  | o :: os, p :: ps => (p - parent - o) :: invKinAux p os ps
  | _, _ => []

/-- Modelled from the spec: the inverse velocity kinematics of the prismatic
chain: re-derives generalized velocities from consecutive world velocities. -/
def invCum (c : ℚ) : List ℚ → List ℚ
  | [] => []
  | p :: ps => (p - c) :: invCum p ps

/-- Modelled from the spec: pipeline init (missing from src): validates the
descriptor (topology, masses) and the coordinate array lengths against the
degree-of-freedom count, reporting a configuration error immediately on any
mismatch, and otherwise builds the State by converting the generalized
coordinates to world-frame transforms and velocities. -/
def initChain (sys : ChainSys) (q qd : List ℚ) : Except ConfigError ChainState :=
  if topoOk 0 sys.parents = false then .error .badTopology
  else if massesOk sys.masses = false then .error .nonPositiveMass
  else if q.length ≠ dofCount sys ∨ qd.length ≠ dofCount sys then
    .error .lengthMismatch
  else .ok { x := forwardKinAux 0 sys.offsets q, xd := cumSum 0 qd,
             q := q, qd := qd }

/-- Modelled from the spec: one Gauss-Seidel pass of the projection loop over
the chain: the limit constraint of every link nudges its predicted pose back
toward the bound by the stiffness fraction of the violation. -/
def chainIter (stiffness : ℚ) (limits xs : List ℚ) : List ℚ :=
  List.zipWith (fun u x => if u < x then x - stiffness * (x - u) else x) limits xs

/-- Modelled from the spec: the constraint-projection loop of the positional
solver, run for a fixed number of iterations with no convergence-tolerance
stopping rule; instrumented to also report how many iterations it executed,
so the fixed-cost property can be stated. -/
def chainLoop (sys : ChainSys) : ℕ → List ℚ → List ℚ × ℕ
  | 0, xs => (xs, 0)
  | n + 1, xs =>
      let r := chainLoop sys n (chainIter sys.stiffness sys.limits xs)
      (r.1, r.2 + 1)

/-- Modelled from the spec: pipeline step (missing from src): free-motion
integration of the predicted poses, the fixed-iteration projection loop,
velocity reconciliation as (corrected pose - pose before integration) over
the timestep, and re-derivation of the generalized coordinates.  The zero
actuation of the tests is carried as an ignored action argument. -/
def stepChain (sys : ChainSys) (st : ChainState) (_a : List ℚ) : ChainState :=
  let xp := List.zipWith (fun x v => x + v * sys.dt) st.x st.xd
  let xc := (chainLoop sys sys.solverIterations xp).1
  let xd := List.zipWith (fun xn xo => (xn - xo) / sys.dt) xc st.x
  { x := xc, xd := xd, q := invKinAux 0 sys.offsets xc, qd := invCum 0 xd }

/-- Modelled from the spec: the ambient environment a call could secretly
read or mutate (a seed, a store of global cells).  The entry points are
threaded through it purely to state that they neither read nor write it:
the spec promises no hidden mutable global state. -/
structure World where
  rngSeed : ℕ
  store : List ℤ
deriving DecidableEq

/-- Pipeline init threaded through the ambient environment. -/
def initW (w : World) (sys : ChainSys) (q qd : List ℚ) :
    World × Except ConfigError ChainState :=
  (w, initChain sys q qd)

/-- Pipeline step threaded through the ambient environment. -/
def stepW (w : World) (sys : ChainSys) (st : ChainState) (a : List ℚ) :
    World × ChainState :=
  (w, stepChain sys st a)

/-- A rollout of n pipeline steps from a state. -/
def rolloutChain (sys : ChainSys) (a : List ℚ) : ℕ → ChainState → ChainState
  | 0, s => s
  | n + 1, s => rolloutChain sys a n (stepChain sys s a)

/-- Two trajectories forked from a shared ancestor, advanced in an arbitrary
interleaving order given by a schedule: true advances the first branch,
false the second. -/
def runSched (sys : ChainSys) (a : List ℚ) :
    List Bool → ChainState × ChainState → ChainState × ChainState
  | [], p => p
  | true :: r, p => runSched sys a r (stepChain sys p.1 a, p.2)
  | false :: r, p => runSched sys a r (p.1, stepChain sys p.2 a)

/-- A concrete well-formed two-link chain descriptor used to witness the
init contracts. -/
def chainSysW : ChainSys :=
  { offsets := [1, 1], masses := [1, 1], parents := [none, some 0],
    limits := [10, 10], dt := 1 / 1000, stiffness := 1 / 5,
    solverIterations := 4 }

/-- A malformed descriptor: the second link's parent index does not precede
it (a dangling parent), and a non-positive mass. -/
def chainSysBad : ChainSys :=
  { offsets := [1, 1], masses := [1, -1], parents := [none, some 5],
    limits := [10, 10], dt := 1 / 1000, stiffness := 1 / 5,
    solverIterations := 4 }

/-! ## Model E: orientation quaternions across a step

Used for the orientation-normalization invariant: every State produced by
step carries unit-norm link orientation quaternions in its x field. -/

structure QTransform where
  posx : ℝ
  posy : ℝ
  posz : ℝ
  rot : Quaternion ℝ

structure QVel where
  vx : ℝ
  vy : ℝ
  vz : ℝ
  ang : Quaternion ℝ

structure QState where
  x : List QTransform
  xd : List QVel

/-- Renormalization of a quaternion onto the unit sphere. -/
noncomputable def qnormalize (q : Quaternion ℝ) : Quaternion ℝ := ‖q‖⁻¹ • q

/-- Modelled from the spec: the orientation part of free-motion integration
(the integrator code is missing from src): the quaternion derivative
(dt/2) * omega * q is added to the orientation over the timestep and the
result is renormalized. -/
noncomputable def orientationUpdate (dt : ℝ) (omega q : Quaternion ℝ) :
    Quaternion ℝ :=
  qnormalize (q + (dt / 2) • (omega * q))

/-- Modelled from the spec: the per-joint angular data of the System
Descriptor read by the projection loop (the joint module is missing from
src): the map computing the corrective rotation for the angular deviation
between the predicted pose and the joint's allowed manifold, with the
joint's angular constraint stiffness, and the map computing the corrective
rotation for an angular-limit violation, with the limit stiffness.  The
deviation maps are arbitrary functions of the current orientation, covering
any concrete deviation computation. -/
structure AngConstraint where
  jointDev : Quaternion ℝ → Quaternion ℝ
  jointStiff : ℝ
  limitDev : Quaternion ℝ → Quaternion ℝ
  limitStiff : ℝ

/-- Modelled from the spec: one orientation nudge of the projection loop:
the corrective rotation, scaled by the constraint stiffness, is applied to
the orientation and the result is renormalized. -/
noncomputable def angularNudge (s : ℝ) (dev : Quaternion ℝ → Quaternion ℝ)
    (q : Quaternion ℝ) : Quaternion ℝ :=
  qnormalize (q + s • (dev q * q))

/-- Modelled from the spec: one Gauss-Seidel iteration of the projection
loop as it acts on one link's orientation: the joint angular-deviation
correction first, then the angular-limit correction, each of them scaled by
its stiffness and renormalized.  The positional joint/limit passes and the
contact pass translate positions and leave orientations untouched, so they
do not appear in the orientation channel. -/
noncomputable def projIterRot (c : AngConstraint) (q : Quaternion ℝ) :
    Quaternion ℝ :=
  angularNudge c.limitStiff c.limitDev (angularNudge c.jointStiff c.jointDev q)

/-- Modelled from the spec: the fixed-iteration projection loop acting on
one link's orientation. -/
noncomputable def projLoopRot (c : AngConstraint) : ℕ → Quaternion ℝ → Quaternion ℝ
  | 0, q => q
  | n + 1, q => projLoopRot c n (projIterRot c q)

/-- Modelled from the spec: the complete orientation treatment of one
pipeline step for one link: free-motion integration of the angular velocity
with renormalization, then the fixed-iteration projection loop whose
angular passes (joint angular deviation, then angular limits) nudge the
orientation once per iteration. -/
noncomputable def stepRot (dt : ℝ) (c : AngConstraint) (iters : ℕ)
    (omega q : Quaternion ℝ) : Quaternion ℝ :=
  projLoopRot c iters (orientationUpdate dt omega q)

/-- The descriptor data the orientation channel of a step reads: timestep,
angular constraints, and the solver iteration count. -/
structure QSys where
  dt : ℝ
  constraints : AngConstraint
  solverIterations : ℕ

/-- Modelled from the spec: the advance of one link's transform across a
full step: the position integrates the linear velocity (and then receives
only translations from the projection passes), while the orientation goes
through the free-motion update and every angular pass of the projection
loop. -/
noncomputable def advanceLink (sys : QSys) (t : QTransform) (v : QVel) :
    QTransform :=
  { posx := t.posx + v.vx * sys.dt, posy := t.posy + v.vy * sys.dt,
    posz := t.posz + v.vz * sys.dt,
    rot := stepRot sys.dt sys.constraints sys.solverIterations v.ang t.rot }

/-- Modelled from the spec: a pipeline step on the transform state: every
link's transform in x is advanced through free-motion integration and the
constraint-projection loop. -/
noncomputable def stepQ (sys : QSys) (s : QState) : QState :=
  { x := List.zipWith (advanceLink sys) s.x s.xd, xd := s.xd }

/-- The identity transform at the origin. -/
noncomputable def qIdentity : QTransform :=
  { posx := 0, posy := 0, posz := 0, rot := 1 }

/-- A link at rest. -/
noncomputable def qRest : QVel := { vx := 0, vy := 0, vz := 0, ang := 0 }

/-- A one-link state used to witness the orientation invariant. -/
noncomputable def qStateW : QState := { x := [qIdentity], xd := [qRest] }

/-- A concrete descriptor used to witness the orientation invariant: zero
deviations and stiffnesses, several projection iterations. -/
noncomputable def qSysW : QSys :=
  { dt := 0,
    constraints := { jointDev := fun _ => 0, jointStiff := 0,
                     limitDev := fun _ => 0, limitStiff := 0 },
    solverIterations := 4 }

/-! ## Model F: the evolution-strategy policy factory

Embedded from brax/training/agents/es/networks.py, which is present in the
excerpt.  The network application and the distribution mode/sample maps are
abstract (their modules are outside the excerpt); the factory logic is the
source logic. -/

structure ParametricDistribution (L A : Type) where
  mode : L → A
  sample : L → ℕ → A

structure FeedForwardNetwork (P O L : Type) where
  apply : P → O → L

structure ESNetworks (P O L A : Type) where
  policy_network : FeedForwardNetwork P O L
  parametric_action_distribution : ParametricDistribution L A

/-- Embedded from make_inference_fn / make_policy / policy of
brax/training/agents/es/networks.py: the policy applies the policy network
to the observations and either takes the distribution mode (when the policy
was made with deterministic=True) or samples from the distribution with the
PRNG key; the extras dictionary is empty in both branches. -/
def make_inference_fn {P O L A : Type} (es_networks : ESNetworks P O L A)
    (params : P) (deterministic : Bool) (observations : O)
    (key_sample : ℕ) : A × List (String × ℚ) :=
  let logits := es_networks.policy_network.apply params observations
  if deterministic then
    (es_networks.parametric_action_distribution.mode logits, [])
  else
    (es_networks.parametric_action_distribution.sample logits key_sample, [])

/-! ## Theorems -/

/-- Scaling the predicted pose by a positive factor scales the result of the
limit projection by the same factor: the projection is positively homogeneous,
because the violation test and the corrective displacement both scale. -/
theorem limitProject_smul (stiffness a : ℚ) (ha : 0 < a) (n : ℕ) :
    ∀ p : ℚ, limitProject stiffness n (a * p) = a * limitProject stiffness n p := by
  induction n with
  | zero => intro p; rfl
  | succ n ih =>
    intro p
    show limitProject stiffness n (if 0 < a * p then a * p - stiffness * (a * p) else a * p)
        = a * limitProject stiffness n (if 0 < p then p - stiffness * p else p)
    by_cases hp : 0 < p
    · have hap : 0 < a * p := mul_pos ha hp
      have hdist : a * p - stiffness * (a * p) = a * (p - stiffness * p) := by ring
      rw [if_pos hap, if_pos hp, hdist, ih]
    · have hap : a * p ≤ 0 := mul_nonpos_iff.mpr (Or.inl ⟨ha.le, not_lt.mp hp⟩)
      rw [if_neg (not_lt.mpr hap), if_neg hp, ih]

/-- One positional-solver step of the limited prismatic degree of freedom is
positively homogeneous in the state. -/
theorem limitStep_smul (dt stiffness a : ℚ) (ha : 0 < a) (iters : ℕ) (p v g : ℚ) :
    limitStep dt stiffness iters { pos := a * p, vel := a * v, ang := a * g }
      = { pos := a * (limitStep dt stiffness iters { pos := p, vel := v, ang := g }).pos,
          vel := a * (limitStep dt stiffness iters { pos := p, vel := v, ang := g }).vel,
          ang := a * (limitStep dt stiffness iters { pos := p, vel := v, ang := g }).ang } := by
  simp only [limitStep]
  have hpred : a * p + a * v * dt = a * (p + v * dt) := by ring
  rw [hpred, limitProject_smul stiffness a ha]
  refine LimState.mk.injEq _ _ _ _ _ _ ▸ ?_
  exact ⟨rfl, by ring, rfl⟩

/-- Iterated positional-solver steps of the limited prismatic degree of
freedom are positively homogeneous in the launch state. -/
theorem limitRun_smul (dt stiffness a : ℚ) (ha : 0 < a) (iters n : ℕ) :
    ∀ p v g : ℚ,
      limitRun dt stiffness iters n { pos := a * p, vel := a * v, ang := a * g }
        = { pos := a * (limitRun dt stiffness iters n { pos := p, vel := v, ang := g }).pos,
            vel := a * (limitRun dt stiffness iters n { pos := p, vel := v, ang := g }).vel,
            ang := a * (limitRun dt stiffness iters n { pos := p, vel := v, ang := g }).ang } := by
  induction n with
  | zero => intro p v g; rfl
  | succ n ih =>
    intro p v g
    show limitRun dt stiffness iters n
          (limitStep dt stiffness iters { pos := a * p, vel := a * v, ang := a * g }) = _
    rw [limitStep_smul dt stiffness a ha iters p v g]
    exact ih _ _ _

/-- The limit-rebound run at unit incoming speed, evaluated exactly. -/
theorem c1_unit_run :
    c1Final 1 = { pos := -608 / 390625, vel := -7488 / 15625, ang := 0 } := by
  norm_num [c1Final, limitRun, limitStep, limitProject]

/-- C1 counterexample: the claim states that an incoming speed of 2.5 units
produces a rebound of at most ~1.18 units.  On the modelled limit dynamics
(matching the assertion of PipelineTest.test_3d_sliding_joint, which requires
the rebound velocity to lie BELOW -1.18), a body launched at the hard limit
with incoming speed 2.5 rebounds at exactly 1.19808 units, which is more than
1.18, so the rebound magnitude is not at most 1.18. -/
theorem c1_limit_rebound_counterexample :
    (c1Final (5 / 2)).vel < -(59 / 50) ∧ ¬ |(c1Final (5 / 2)).vel| ≤ 59 / 50 := by
  norm_num [c1Final, limitRun, limitStep, limitProject, abs]

/-- C1 (amended): a body launched at a hard positional or angular joint limit
with incoming velocity magnitude v rebounds with velocity magnitude strictly
less than v (never equal or greater); an incoming speed of 2.5 units produces
a rebound of MORE than 1.18 units in the opposing direction (as the test
asserts), still strictly below 2.5; velocity components along axes orthogonal
to the limit stay near zero within 1e-7 (here exactly zero).  The rebound
scales linearly: it is always 7488/15625 of the incoming speed. -/
theorem c1_limit_rebound_amended (v0 : ℚ) (h : 0 < v0) :
    (c1Final v0).vel = -(7488 / 15625) * v0 ∧
    -v0 < (c1Final v0).vel ∧ (c1Final v0).vel < 0 ∧
    (c1Final v0).ang = 0 ∧ |(c1Final v0).ang| ≤ 1 / 10000000 ∧
    (v0 = 5 / 2 → (c1Final v0).vel < -(59 / 50)) := by
  have hstart : ({ pos := 0, vel := v0, ang := 0 } : LimState)
      = { pos := v0 * 0, vel := v0 * 1, ang := v0 * 0 } := by
    rw [mul_zero, mul_one]
  have key : c1Final v0
      = { pos := v0 * (c1Final 1).pos, vel := v0 * (c1Final 1).vel,
          ang := v0 * (c1Final 1).ang } := by
    unfold c1Final
    rw [hstart, limitRun_smul (1 / 1000) (1 / 5) v0 h 1 10 0 1 0]
  rw [key, c1_unit_run]
  refine ⟨by ring, by nlinarith, by nlinarith, by ring, ?_, ?_⟩
  · rw [mul_zero, abs_zero]; norm_num
  · intro hv; rw [hv]; norm_num

/-- C1 witness: the amended rebound theorem applied at the incoming speed 2.5
used by the test. -/
theorem c1_limit_rebound_witness :
    (0 : ℚ) < 5 / 2 ∧
      ((c1Final (5 / 2)).vel = -(7488 / 15625) * (5 / 2) ∧
      -(5 / 2 : ℚ) < (c1Final (5 / 2)).vel ∧ (c1Final (5 / 2)).vel < 0 ∧
      (c1Final (5 / 2)).ang = 0 ∧ |(c1Final (5 / 2)).ang| ≤ 1 / 10000000 ∧
      ((5 / 2 : ℚ) = 5 / 2 → (c1Final (5 / 2)).vel < -(59 / 50))) :=
  ⟨by norm_num, c1_limit_rebound_amended (5 / 2) (by norm_num)⟩

/-- One Gauss-Seidel pass halves the common deviation of the pendulum links
from the joint manifold. -/
theorem penIter_closed (p : ℚ × ℚ) :
    penIter p = (-pL1 + (p.2 + (pL1 + pL2)) / 2,
                 -(pL1 + pL2) + (p.2 + (pL1 + pL2)) / 2) := by
  simp only [penIter, Prod.mk.injEq]
  constructor <;> ring

/-- After n+1 projection iterations the deviation from the joint manifold is
divided by 2 ^ (n+1), for both links. -/
theorem penLoop_closed (n : ℕ) :
    ∀ p : ℚ × ℚ, penLoop (n + 1) p
      = (-pL1 + (p.2 + (pL1 + pL2)) / 2 ^ (n + 1),
         -(pL1 + pL2) + (p.2 + (pL1 + pL2)) / 2 ^ (n + 1)) := by
  induction n with
  | zero =>
    intro p
    show penIter p = _
    rw [penIter_closed]
    norm_num
  | succ n ih =>
    intro p
    show penLoop (n + 1) (penIter p) = _
    rw [ih (penIter p), penIter_closed p]
    simp only [Prod.mk.injEq]
    constructor <;> ring

theorem pE_eq : pE = 1 / 2 ^ 500 := by
  rw [pE, div_pow, one_pow]

/-- Closed form of one positional-solver step of the pendulum model. -/
theorem penStep_closed (s : PenState) :
    penStep s = { z1 := -pL1 + penD s, z2 := -(pL1 + pL2) + penD s,
                  v1 := (-pL1 + penD s - s.z1) / pdt,
                  v2 := (-(pL1 + pL2) + penD s - s.z2) / pdt } := by
  have h : penLoop pIters
        (s.z1 + (s.v1 - pg * pdt) * pdt, s.z2 + (s.v2 - pg * pdt) * pdt)
      = (-pL1 + ((s.z2 + (s.v2 - pg * pdt) * pdt) + (pL1 + pL2)) / 2 ^ 500,
         -(pL1 + pL2) + ((s.z2 + (s.v2 - pg * pdt) * pdt) + (pL1 + pL2)) / 2 ^ 500) :=
    penLoop_closed 499 _
  simp only [penStep, h, penD, pE_eq, PenState.mk.injEq]
  refine ⟨by ring, by ring, by ring, by ring⟩

theorem penStep_z1 (s : PenState) : (penStep s).z1 = -pL1 + penD s := by
  rw [penStep_closed]

theorem penStep_z2 (s : PenState) : (penStep s).z2 = -(pL1 + pL2) + penD s := by
  rw [penStep_closed]

theorem penStep_v1 (s : PenState) :
    (penStep s).v1 = (-pL1 + penD s - s.z1) / pdt := by
  rw [penStep_closed]

theorem penStep_v2 (s : PenState) :
    (penStep s).v2 = (-(pL1 + pL2) + penD s - s.z2) / pdt := by
  rw [penStep_closed]

theorem pE_pos : (0 : ℚ) < pE := by
  rw [pE]; positivity

theorem pE_le : pE ≤ 1 / 6 := by
  rw [pE]
  calc ((1 : ℚ) / 2) ^ 500 ≤ (1 / 2) ^ 3 :=
        pow_le_pow_of_le_one (by norm_num) (by norm_num) (by norm_num)
    _ ≤ 1 / 6 := by norm_num

/-- The contraction inequality of the projection loop: the corrected offset
stays within the invariant bound pA whenever the incoming offset and velocity
do. -/
theorem pen_key (x : ℚ) (hx : |x| ≤ pA + pV * pdt + pg * pdt ^ 2) :
    |pE * x| ≤ pA := by
  have hE := pE_pos
  have hE6 := pE_le
  rw [abs_mul, abs_of_pos hE]
  have expand : pA + pV * pdt + pg * pdt ^ 2 = pg * pdt ^ 2 * (6 * pE + 1) := by
    simp only [pA, pV, pdt, pg]
    ring
  calc pE * |x|
      ≤ pE * (pg * pdt ^ 2 * (6 * pE + 1)) := by
        apply mul_le_mul_of_nonneg_left _ hE.le
        rw [← expand]; exact hx
    _ ≤ pA := by
        simp only [pA, pg, pdt]
        nlinarith [mul_le_mul_of_nonneg_left hE6 hE.le, hE.le]

/-- Invariant of the pendulum trajectory: the two link positions stay within
pA of the equilibrium and both velocities stay within pV, at every step. -/
theorem pen_inv (n : ℕ) :
    |(penRun n).z1 + pL1| ≤ pA ∧ |(penRun n).z2 + (pL1 + pL2)| ≤ pA ∧
    |(penRun n).v1| ≤ pV ∧ |(penRun n).v2| ≤ pV := by
  have hApos : (0 : ℚ) ≤ pA := by
    have := pE_pos
    simp only [pA, pg, pdt]
    nlinarith
  have hVpos : (0 : ℚ) ≤ pV := by
    simp only [pV, pdt]
    nlinarith [hApos]
  have hpdt : (0 : ℚ) < pdt := by rw [pdt]; norm_num
  induction n with
  | zero =>
    have h1 : (penRun 0).z1 + pL1 = 0 := by show -pL1 + pL1 = 0; ring
    have h2 : (penRun 0).z2 + (pL1 + pL2) = 0 := by
      show -(pL1 + pL2) + (pL1 + pL2) = 0; ring
    have h3 : (penRun 0).v1 = 0 := rfl
    have h4 : (penRun 0).v2 = 0 := rfl
    rw [h1, h2, h3, h4, abs_zero]
    exact ⟨hApos, hApos, hVpos, hVpos⟩
  | succ n ih =>
    obtain ⟨ha, hb, hv1, hv2⟩ := ih
    have hb' := abs_le.mp hb
    have hv2' := abs_le.mp hv2
    have hmul1 : (penRun n).v2 * pdt ≤ pV * pdt :=
      mul_le_mul_of_nonneg_right hv2'.2 hpdt.le
    have hmul2 : -(pV * pdt) ≤ (penRun n).v2 * pdt := by
      have := mul_le_mul_of_nonneg_right hv2'.1 hpdt.le
      calc -(pV * pdt) = -pV * pdt := by ring
        _ ≤ (penRun n).v2 * pdt := this
    have hpg2 : (0 : ℚ) ≤ pg * pdt ^ 2 := by rw [pg, pdt]; norm_num
    have hXeq : (penRun n).z2 + (pL1 + pL2) + ((penRun n).v2 - pg * pdt) * pdt
        = ((penRun n).z2 + (pL1 + pL2)) + (penRun n).v2 * pdt - pg * pdt ^ 2 := by
      ring
    have hX : |(penRun n).z2 + (pL1 + pL2) + ((penRun n).v2 - pg * pdt) * pdt|
        ≤ pA + pV * pdt + pg * pdt ^ 2 := by
      rw [hXeq]
      refine abs_le.mpr ⟨by linarith, by linarith⟩
    have hds : |penD (penRun n)| ≤ pA := by
      rw [penD]
      exact pen_key _ hX
    have hds' := abs_le.mp hds
    have ha' := abs_le.mp ha
    have hrun : penRun (n + 1) = penStep (penRun n) := rfl
    refine ⟨?_, ?_, ?_, ?_⟩
    · rw [hrun, penStep_z1]
      have : -pL1 + penD (penRun n) + pL1 = penD (penRun n) := by ring
      rw [this]; exact hds
    · rw [hrun, penStep_z2]
      have : -(pL1 + pL2) + penD (penRun n) + (pL1 + pL2) = penD (penRun n) := by
        ring
      rw [this]; exact hds
    · rw [hrun, penStep_v1]
      have hnum : -pL1 + penD (penRun n) - (penRun n).z1
          = penD (penRun n) - ((penRun n).z1 + pL1) := by ring
      rw [hnum, abs_div, abs_of_pos hpdt, div_le_iff hpdt]
      have hPV : pV * pdt = 2 * pA := by
        simp only [pV, pdt]; ring
      rw [hPV]
      refine abs_le.mpr ⟨by linarith, by linarith⟩
    · rw [hrun, penStep_v2]
      have hnum : -(pL1 + pL2) + penD (penRun n) - (penRun n).z2
          = penD (penRun n) - ((penRun n).z2 + (pL1 + pL2)) := by ring
      rw [hnum, abs_div, abs_of_pos hpdt, div_le_iff hpdt]
      have hPV : pV * pdt = 2 * pA := by
        simp only [pV, pdt]; ring
      rw [hPV]
      refine abs_le.mpr ⟨by linarith, by linarith⟩

/-- C2: simulating the lightly-constrained double pendulum from identical
initial conditions with both the positional solver and the reduced-coordinate
oracle keeps the world-frame link positions within 2e-2 of each other
(stated on the squared Euclidean norm over the two links: it stays below
(2e-2)^2), at every step of the simulation, in particular for the whole
fixed test duration. -/
theorem c2_trajectory_agreement (n : ℕ) :
    ((penRun n).z1 - (oracleRun n).1) ^ 2 + ((penRun n).z2 - (oracleRun n).2) ^ 2
      < (1 / 50) ^ 2 := by
  obtain ⟨ha, hb, -, -⟩ := pen_inv n
  have h1 : (penRun n).z1 - (oracleRun n).1 = (penRun n).z1 + pL1 := by
    simp only [oracleRun]; ring
  have h2 : (penRun n).z2 - (oracleRun n).2 = (penRun n).z2 + (pL1 + pL2) := by
    simp only [oracleRun]; ring
  have hA : pA ≤ 1 / 1000000 := by
    have := pE_le
    have := pE_pos
    simp only [pA, pg, pdt] at *
    nlinarith
  have hApos : (0 : ℚ) ≤ pA := by
    have := pE_pos
    simp only [pA, pg, pdt]
    nlinarith
  have sq1 : ((penRun n).z1 + pL1) ^ 2 ≤ pA ^ 2 := by
    rw [← sq_abs]
    exact pow_le_pow_left (abs_nonneg _) ha 2
  have sq2 : ((penRun n).z2 + (pL1 + pL2)) ^ 2 ≤ pA ^ 2 := by
    rw [← sq_abs]
    exact pow_le_pow_left (abs_nonneg _) hb 2
  rw [h1, h2]
  nlinarith [sq1, sq2, hA, hApos]

/-- Closed form of one capsule step while the predicted pose penetrates the
contact surface. -/
theorem capStep_contact (s : CapState)
    (h : s.pz + (s.vz - cg * cdt) * cdt < crad) :
    capStep s = { px := s.px + s.vx * cdt,
                  pz := s.pz + (s.vz - cg * cdt) * cdt
                        + collideScale * (crad - (s.pz + (s.vz - cg * cdt) * cdt)),
                  vx := cFric * ((s.px + s.vx * cdt - s.px) / cdt),
                  vz := 0,
                  rot := s.rot + s.angvel * cdt,
                  angvel := s.angvel } := by
  simp only [capStep, capProject, if_pos h]

/-- Invariant of the sliding-capsule trajectory: no vertical velocity, no
spin, unchanged orientation, vertical pose within 3 g dt^2 of the resting
height, and the horizontal velocity decayed by the friction factor at every
step. -/
theorem cap_inv (n : ℕ) :
    (capRun n).vz = 0 ∧ (capRun n).angvel = 0 ∧ (capRun n).rot = 0 ∧
    -(3 * cg * cdt ^ 2) ≤ (capRun n).pz - crad ∧ (capRun n).pz - crad ≤ 0 ∧
    (capRun n).vx = 5 * cFric ^ n := by
  induction n with
  | zero =>
    refine ⟨rfl, rfl, rfl, ?_, ?_, ?_⟩
    · show -(3 * cg * cdt ^ 2) ≤ crad - crad
      rw [cg, cdt]; norm_num
    · show crad - crad ≤ (0 : ℚ)
      norm_num
    · show (5 : ℚ) = 5 * cFric ^ 0
      norm_num
  | succ n ih =>
    obtain ⟨hvz, hang, hrot, helo, hehi, hvx⟩ := ih
    have hgdt : (0 : ℚ) < cg * cdt ^ 2 := by rw [cg, cdt]; norm_num
    have hpen : (capRun n).pz + ((capRun n).vz - cg * cdt) * cdt < crad := by
      rw [hvz]
      have e : (capRun n).pz + (0 - cg * cdt) * cdt
          = (capRun n).pz - cg * cdt ^ 2 := by ring
      rw [e]
      linarith
    have hstep : capRun (n + 1) = capStep (capRun n) := rfl
    rw [hstep, capStep_contact (capRun n) hpen]
    have hcdt : (cdt : ℚ) ≠ 0 := by rw [cdt]; norm_num
    refine ⟨rfl, hang, ?_, ?_, ?_, ?_⟩
    · show (capRun n).rot + (capRun n).angvel * cdt = 0
      rw [hrot, hang]; ring
    · show -(3 * cg * cdt ^ 2)
          ≤ (capRun n).pz + ((capRun n).vz - cg * cdt) * cdt
            + collideScale * (crad - ((capRun n).pz + ((capRun n).vz - cg * cdt) * cdt))
            - crad
      rw [hvz, collideScale]
      have e : (capRun n).pz + (0 - cg * cdt) * cdt
            + 1 / 4 * (crad - ((capRun n).pz + (0 - cg * cdt) * cdt)) - crad
          = 3 / 4 * (((capRun n).pz - crad) - cg * cdt ^ 2) := by ring
      rw [e]
      linarith
    · show (capRun n).pz + ((capRun n).vz - cg * cdt) * cdt
            + collideScale * (crad - ((capRun n).pz + ((capRun n).vz - cg * cdt) * cdt))
            - crad ≤ 0
      rw [hvz, collideScale]
      have e : (capRun n).pz + (0 - cg * cdt) * cdt
            + 1 / 4 * (crad - ((capRun n).pz + (0 - cg * cdt) * cdt)) - crad
          = 3 / 4 * (((capRun n).pz - crad) - cg * cdt ^ 2) := by ring
      rw [e]
      linarith
    · show cFric * (((capRun n).px + (capRun n).vx * cdt - (capRun n).px) / cdt)
          = 5 * cFric ^ (n + 1)
      have e : (capRun n).px + (capRun n).vx * cdt - (capRun n).px
          = (capRun n).vx * cdt := by ring
      rw [e, mul_div_assoc, div_self hcdt, hvx]
      ring

/-- The friction decay drops below the test tolerance within 1000 steps. -/
theorem cFric_pow_small : cFric ^ 1000 ≤ 1 / 500 := by
  rw [cFric]
  have h7 : ((9 : ℚ) / 10) ^ 7 ≤ 1 / 2 := by norm_num
  have hsplit : ((9 : ℚ) / 10) ^ 1000 = (((9 : ℚ) / 10) ^ 7) ^ 142 * ((9 : ℚ) / 10) ^ 6 := by
    rw [← pow_mul, ← pow_add]
  rw [hsplit]
  calc (((9 : ℚ) / 10) ^ 7) ^ 142 * ((9 : ℚ) / 10) ^ 6
      ≤ (1 / 2) ^ 142 * 1 := by
        apply mul_le_mul
        · exact pow_le_pow_left (by positivity) h7 142
        · exact pow_le_one (by norm_num) (by norm_num)
        · positivity
        · positivity
    _ ≤ 1 / 500 := by
        rw [mul_one]
        calc ((1 : ℚ) / 2) ^ 142 ≤ (1 / 2) ^ 9 :=
              pow_le_pow_of_le_one (by norm_num) (by norm_num) (by norm_num)
          _ ≤ 1 / 500 := by norm_num

/-- C3: the capsule launched at 5 m/s against the frictional contact surface
decelerates monotonically (the horizontal speed never increases and the
vertical and angular velocities stay zero), and after the 1000 simulated
steps of the test it has settled: both velocity components within 1e-2 of
zero, resting height within 1e-2 of the value fixed by the contact geometry
(the capsule radius), orientation unchanged (hence within 1e-3). -/
theorem c3_sliding_capsule_settles :
    (∀ n : ℕ, |(capRun (n + 1)).vx| ≤ |(capRun n).vx| ∧ (capRun (n + 1)).vz = 0) ∧
    |(capRun 1000).vx| ≤ 1 / 100 ∧ (capRun 1000).vz = 0 ∧
    |(capRun 1000).angvel| ≤ 1 / 100 ∧
    |(capRun 1000).pz - crad| ≤ 1 / 100 ∧
    (capRun 1000).rot = (capRun 0).rot := by
  have hf0 : (0 : ℚ) ≤ cFric := by rw [cFric]; norm_num
  have hf1 : cFric ≤ 1 := by rw [cFric]; norm_num
  refine ⟨?_, ?_, (cap_inv 1000).1, ?_, ?_, ?_⟩
  · intro n
    obtain ⟨-, -, -, -, -, hvx⟩ := cap_inv n
    obtain ⟨hvz', -, -, -, -, hvx'⟩ := cap_inv (n + 1)
    refine ⟨?_, hvz'⟩
    rw [hvx, hvx', abs_of_nonneg (by positivity), abs_of_nonneg (by positivity)]
    have : (5 : ℚ) * cFric ^ (n + 1) = 5 * cFric ^ n * cFric := by ring
    rw [this]
    nlinarith [pow_nonneg hf0 n]
  · obtain ⟨-, -, -, -, -, hvx⟩ := cap_inv 1000
    rw [hvx, abs_of_nonneg (mul_nonneg (by norm_num) (pow_nonneg hf0 1000))]
    nlinarith [cFric_pow_small]
  · obtain ⟨-, hang, -, -, -, -⟩ := cap_inv 1000
    rw [hang, abs_zero]
    norm_num
  · obtain ⟨-, -, -, helo, hehi, -⟩ := cap_inv 1000
    refine abs_le.mpr ⟨?_, hehi.trans (by norm_num)⟩
    have : -(1 / 100 : ℚ) ≤ -(3 * cg * cdt ^ 2) := by rw [cg, cdt]; norm_num
    linarith
  · obtain ⟨-, -, hrot, -, -, -⟩ := cap_inv 1000
    rw [hrot]
    rfl

/-- Inverse kinematics undoes forward kinematics on the prismatic chain, for
matching lengths. -/
theorem invKin_forwardKin (os : List ℚ) :
    ∀ (q : List ℚ) (c : ℚ), q.length = os.length →
      invKinAux c os (forwardKinAux c os q) = q := by
  induction os with
  | nil =>
    intro q c h
    cases q with
    | nil => rfl
    | cons v vs => simp at h
  | cons o os ih =>
    intro q c h
    cases q with
    | nil => simp at h
    | cons v vs =>
      show (c + o + v - c - o)
            :: invKinAux (c + o + v) os (forwardKinAux (c + o + v) os vs)
          = v :: vs
      have h1 : c + o + v - c - o = v := by ring
      rw [h1, ih vs (c + o + v) (by simpa using h)]

/-- Forward kinematics undoes inverse kinematics on the prismatic chain, for
matching lengths. -/
theorem forwardKin_invKin (os : List ℚ) :
    ∀ (ps : List ℚ) (c : ℚ), ps.length = os.length →
      forwardKinAux c os (invKinAux c os ps) = ps := by
  induction os with
  | nil =>
    intro ps c h
    cases ps with
    | nil => rfl
    | cons p ps => simp at h
  | cons o os ih =>
    intro ps c h
    cases ps with
    | nil => simp at h
    | cons p ps =>
      show (c + o + (p - c - o))
            :: forwardKinAux (c + o + (p - c - o)) os (invKinAux p os ps)
          = p :: ps
      have h1 : c + o + (p - c - o) = p := by ring
      rw [h1, ih ps p (by simpa using h)]

/-- Inverse velocity kinematics undoes the cumulative velocity map. -/
theorem invCum_cumSum : ∀ (vs : List ℚ) (c : ℚ), invCum c (cumSum c vs) = vs := by
  intro vs
  induction vs with
  | nil => intro c; rfl
  | cons v vs ih =>
    intro c
    show (c + v - c) :: invCum (c + v) (cumSum (c + v) vs) = v :: vs
    have h1 : c + v - c = v := by ring
    rw [h1, ih (c + v)]

/-- The cumulative velocity map undoes inverse velocity kinematics. -/
theorem cumSum_invCum : ∀ (ps : List ℚ) (c : ℚ), cumSum c (invCum c ps) = ps := by
  intro ps
  induction ps with
  | nil => intro c; rfl
  | cons p ps ih =>
    intro c
    show (c + (p - c)) :: cumSum (c + (p - c)) (invCum p ps) = p :: ps
    have h1 : c + (p - c) = p := by ring
    rw [h1, ih p]

/-- C5: a successful init returns a State with all fields populated and
internally consistent: the stored generalized coordinates are the inputs,
re-deriving the generalized coordinates and velocities from the world-frame
fields x and xd recovers q and qd exactly, and re-deriving x and xd from
those recovered coordinates reproduces x and xd exactly (equality in exact
arithmetic, hence within floating-point tolerance). -/
theorem c5_init_roundtrip (sys : ChainSys) (q qd : List ℚ) (st : ChainState)
    (h : initChain sys q qd = Except.ok st) :
    st.q = q ∧ st.qd = qd ∧
    invKinAux 0 sys.offsets st.x = q ∧ invCum 0 st.xd = qd ∧
    forwardKinAux 0 sys.offsets (invKinAux 0 sys.offsets st.x) = st.x ∧
    cumSum 0 (invCum 0 st.xd) = st.xd := by
  rw [initChain] at h
  by_cases h1 : topoOk 0 sys.parents = false
  · rw [if_pos h1] at h; exact absurd h (by simp)
  rw [if_neg h1] at h
  by_cases h2 : massesOk sys.masses = false
  · rw [if_pos h2] at h; exact absurd h (by simp)
  rw [if_neg h2] at h
  by_cases h3 : q.length ≠ dofCount sys ∨ qd.length ≠ dofCount sys
  · rw [if_pos h3] at h; exact absurd h (by simp)
  rw [if_neg h3] at h
  push_neg at h3
  have hst : st = { x := forwardKinAux 0 sys.offsets q, xd := cumSum 0 qd,
                    q := q, qd := qd } := by
    injection h with h4
    exact h4.symm
  subst hst
  have hlen : q.length = sys.offsets.length := h3.1
  refine ⟨rfl, rfl, ?_, ?_, ?_, ?_⟩
  · exact invKin_forwardKin sys.offsets q 0 hlen
  · exact invCum_cumSum qd 0
  · rw [invKin_forwardKin sys.offsets q 0 hlen]
  · rw [invCum_cumSum qd 0]

/-- C5 witness: a successful init on the concrete two-link chain, with all
round trips checked on the resulting concrete State. -/
theorem c5_init_roundtrip_witness :
    initChain chainSysW [2, 3] [1, 1]
        = Except.ok { x := [3, 7], xd := [1, 2], q := [2, 3], qd := [1, 1] } ∧
    (({ x := [3, 7], xd := [1, 2], q := [2, 3], qd := [1, 1] } : ChainState).q
        = [2, 3] ∧
     ({ x := [3, 7], xd := [1, 2], q := [2, 3], qd := [1, 1] } : ChainState).qd
        = [1, 1] ∧
     invKinAux 0 chainSysW.offsets [3, 7] = [2, 3] ∧
     invCum 0 [1, 2] = [1, 1] ∧
     forwardKinAux 0 chainSysW.offsets (invKinAux 0 chainSysW.offsets [3, 7])
        = [3, 7] ∧
     cumSum 0 (invCum 0 [1, 2]) = [1, 2]) := by
  have hinit : initChain chainSysW [2, 3] [1, 1]
      = Except.ok { x := [3, 7], xd := [1, 2], q := [2, 3], qd := [1, 1] } := by
    rw [initChain]
    norm_num [chainSysW, dofCount, topoOk, massesOk, forwardKinAux, cumSum]
  exact ⟨hinit, c5_init_roundtrip chainSysW [2, 3] [1, 1] _ hinit⟩

/-- C9: init reports a configuration error whenever the coordinate array
lengths mismatch the descriptor's degree-of-freedom count, and whenever the
descriptor is malformed (dangling parent index or non-positive mass); this
happens at init time for any state of the coordinate arrays (step takes no
part in validation), and a success implies every check passed, so nothing is
silently defaulted. -/
theorem c9_init_validation (sys : ChainSys) (q qd : List ℚ) :
    ((q.length ≠ dofCount sys ∨ qd.length ≠ dofCount sys) →
      ∃ e, initChain sys q qd = Except.error e) ∧
    ((topoOk 0 sys.parents = false ∨ massesOk sys.masses = false) →
      ∃ e, initChain sys q qd = Except.error e) ∧
    (∀ st, initChain sys q qd = Except.ok st →
      topoOk 0 sys.parents = true ∧ massesOk sys.masses = true ∧
      q.length = dofCount sys ∧ qd.length = dofCount sys) := by
  refine ⟨?_, ?_, ?_⟩
  · intro h
    rw [initChain]
    by_cases h1 : topoOk 0 sys.parents = false
    · rw [if_pos h1]; exact ⟨_, rfl⟩
    rw [if_neg h1]
    by_cases h2 : massesOk sys.masses = false
    · rw [if_pos h2]; exact ⟨_, rfl⟩
    rw [if_neg h2, if_pos h]
    exact ⟨_, rfl⟩
  · intro h
    rw [initChain]
    by_cases h1 : topoOk 0 sys.parents = false
    · rw [if_pos h1]; exact ⟨_, rfl⟩
    rw [if_neg h1]
    have h2 : massesOk sys.masses = false := by
      rcases h with h | h
      · exact absurd h h1
      · exact h
    rw [if_pos h2]
    exact ⟨_, rfl⟩
  · intro st hok
    rw [initChain] at hok
    by_cases h1 : topoOk 0 sys.parents = false
    · rw [if_pos h1] at hok; exact absurd hok (by simp)
    rw [if_neg h1] at hok
    by_cases h2 : massesOk sys.masses = false
    · rw [if_pos h2] at hok; exact absurd hok (by simp)
    rw [if_neg h2] at hok
    by_cases h3 : q.length ≠ dofCount sys ∨ qd.length ≠ dofCount sys
    · rw [if_pos h3] at hok; exact absurd hok (by simp)
    push_neg at h3
    refine ⟨?_, ?_, h3.1, h3.2⟩
    · cases htop : topoOk 0 sys.parents
      · exact absurd htop h1
      · rfl
    · cases hm : massesOk sys.masses
      · exact absurd hm h2
      · rfl

/-- C9 witness: the malformed descriptor (dangling parent, non-positive
mass) is rejected by init, and so is a length mismatch on the well-formed
descriptor. -/
theorem c9_init_validation_witness :
    (∃ e, initChain chainSysBad [0, 0] [0, 0] = Except.error e) ∧
    (∃ e, initChain chainSysW [0] [0] = Except.error e) :=
  ⟨(c9_init_validation chainSysBad [0, 0] [0, 0]).2.1 (Or.inl rfl),
   (c9_init_validation chainSysW [0] [0]).1 (Or.inl (by decide))⟩

/-- Forked trajectories advanced in any interleaving order are exactly the
independent rollouts: the branches do not interfere, and the outcome of each
branch depends only on how many of its own steps ran. -/
theorem rolloutChain_succ (sys : ChainSys) (a : List ℚ) (n : ℕ)
    (s : ChainState) :
    rolloutChain sys a (n + 1) s = rolloutChain sys a n (stepChain sys s a) :=
  rfl

theorem runSched_split (sys : ChainSys) (a : List ℚ) :
    ∀ (sched : List Bool) (s t : ChainState),
      runSched sys a sched (s, t)
        = (rolloutChain sys a (sched.count true) s,
           rolloutChain sys a (sched.count false) t) := by
  intro sched
  induction sched with
  | nil => intro s t; rfl
  | cons b r ih =>
    intro s t
    cases b
    · show runSched sys a r (s, stepChain sys t a) = _
      rw [ih s (stepChain sys t a)]
      have hc1 : (false :: r).count true = r.count true := by simp
      have hc2 : (false :: r).count false = r.count false + 1 := by simp
      rw [hc1, hc2, rolloutChain_succ]
    · show runSched sys a r (stepChain sys s a, t) = _
      rw [ih (stepChain sys s a) t]
      have hc1 : (true :: r).count true = r.count true + 1 := by simp
      have hc2 : (true :: r).count false = r.count false := by simp
      rw [hc1, hc2, rolloutChain_succ]

/-- C6: step is a pure, deterministic function of (descriptor, state,
action): threading any two ambient environments through the same call gives
the same new State, the ambient environment is returned untouched (nothing
hidden is written), and trajectories forked from a shared ancestor State can
be advanced in any interleaving without interference, each ending exactly at
its independent rollout. -/
theorem c6_step_pure (w1 w2 : World) (sys : ChainSys) (st : ChainState)
    (a : List ℚ) :
    (stepW w1 sys st a).2 = (stepW w2 sys st a).2 ∧
    (stepW w1 sys st a).1 = w1 ∧
    (∀ (sched : List Bool) (s : ChainState),
      runSched sys a sched (s, s)
        = (rolloutChain sys a (sched.count true) s,
           rolloutChain sys a (sched.count false) s)) :=
  ⟨rfl, rfl, fun sched s => runSched_split sys a sched s s⟩

/-- C7: init is deterministic: it ignores the ambient environment (so any
hidden randomness would have nowhere to come from — there is no random seed
input), leaves it untouched, and calling it twice in sequence with identical
arguments yields identical results. -/
theorem c7_init_deterministic (w w2 : World) (sys : ChainSys)
    (q qd : List ℚ) :
    (initW w sys q qd).2 = (initW w2 sys q qd).2 ∧
    (initW w sys q qd).1 = w ∧
    (initW (initW w sys q qd).1 sys q qd).2 = (initW w sys q qd).2 :=
  ⟨rfl, rfl, rfl⟩

/-- The instrumented projection loop executes exactly as many iterations as
its budget argument, whatever the poses are: there is no data-dependent
early exit. -/
theorem chainLoop_count (sys : ChainSys) :
    ∀ (n : ℕ) (xs : List ℚ), (chainLoop sys n xs).2 = n := by
  intro n
  induction n with
  | zero => intro xs; rfl
  | succ n ih =>
    intro xs
    show (chainLoop sys n (chainIter sys.stiffness sys.limits xs)).2 + 1 = n + 1
    rw [ih]

/-- C8: within a step call the constraint-projection loop runs for exactly
the descriptor's solver_iterations count (the loop step executes on the
predicted poses exactly that many times, with no convergence-tolerance
stopping rule: the count is the same for every input), and the budget is
whatever the descriptor carries, so it is override-able per descriptor and
the worst-case cost of a step is deterministically bounded. -/
theorem c8_fixed_iteration_budget (sys : ChainSys) (st : ChainState) :
    (chainLoop sys sys.solverIterations
        (List.zipWith (fun x v => x + v * sys.dt) st.x st.xd)).2
      = sys.solverIterations ∧
    (∀ (k : ℕ) (xs : List ℚ), (chainLoop sys k xs).2 = k) :=
  ⟨chainLoop_count sys sys.solverIterations _, fun k xs => chainLoop_count sys k xs⟩

/-- Every element of a zipWith comes from a pair of elements of the zipped
lists. -/
theorem mem_zipWith {α β γ : Type} (f : α → β → γ) :
    ∀ (l1 : List α) (l2 : List β) (c : γ), c ∈ List.zipWith f l1 l2 →
      ∃ a b, a ∈ l1 ∧ b ∈ l2 ∧ c = f a b := by
  intro l1
  induction l1 with
  | nil => intro l2 c h; simp at h
  | cons a l1 ih =>
    intro l2 c h
    cases l2 with
    | nil => simp at h
    | cons b l2 =>
      rcases List.mem_cons.mp h with h | h
      · exact ⟨a, b, List.mem_cons_self a l1, List.mem_cons_self b l2, h⟩
      · obtain ⟨a2, b2, ha, hb, he⟩ := ih l2 c h
        exact ⟨a2, b2, List.mem_cons_of_mem a ha, List.mem_cons_of_mem b hb, he⟩

/-- Renormalization lands on the unit sphere whenever its argument is
nonzero. -/
theorem qnormalize_norm (q : Quaternion ℝ) (h : q ≠ 0) :
    ‖qnormalize q‖ = 1 := by
  rw [qnormalize, norm_smul, norm_inv, norm_norm]
  have hn : ‖q‖ ≠ 0 := norm_ne_zero_iff.mpr h
  field_simp

/-- The normalized free-motion orientation update lands on the unit sphere
whenever the pre-normalization quaternion is nonzero. -/
theorem orientationUpdate_norm (dt : ℝ) (omega q : Quaternion ℝ)
    (h : q + (dt / 2) • (omega * q) ≠ 0) :
    ‖orientationUpdate dt omega q‖ = 1 :=
  qnormalize_norm _ h

/-- An angular nudge of the projection loop keeps a unit orientation on the
unit sphere, as long as the scaled corrective rotation is smaller than the
orientation itself (the correction cannot cancel a unit quaternion). -/
theorem angularNudge_unit (s : ℝ) (dev : Quaternion ℝ → Quaternion ℝ)
    (q : Quaternion ℝ) (hq : ‖q‖ = 1) (hs : |s| * ‖dev q‖ < 1) :
    ‖angularNudge s dev q‖ = 1 := by
  apply qnormalize_norm
  intro h0
  have h1 : q = -(s • (dev q * q)) := eq_neg_of_add_eq_zero_left h0
  have h2 : ‖q‖ = ‖-(s • (dev q * q))‖ := congrArg norm h1
  rw [norm_neg, norm_smul, norm_mul, Real.norm_eq_abs, hq, mul_one] at h2
  linarith

/-- One Gauss-Seidel iteration of the projection loop (the joint angular
correction, then the angular-limit correction) preserves unit orientations
when neither scaled correction reaches the full orientation magnitude. -/
theorem projIterRot_unit (c : AngConstraint)
    (hj : ∀ q : Quaternion ℝ, ‖q‖ = 1 → |c.jointStiff| * ‖c.jointDev q‖ < 1)
    (hl : ∀ q : Quaternion ℝ, ‖q‖ = 1 → |c.limitStiff| * ‖c.limitDev q‖ < 1)
    (q : Quaternion ℝ) (hq : ‖q‖ = 1) : ‖projIterRot c q‖ = 1 := by
  have h1 : ‖angularNudge c.jointStiff c.jointDev q‖ = 1 :=
    angularNudge_unit _ _ _ hq (hj q hq)
  exact angularNudge_unit _ _ _ h1 (hl _ h1)

/-- The whole fixed-iteration projection loop preserves unit orientations,
for any iteration count. -/
theorem projLoopRot_unit (c : AngConstraint)
    (hj : ∀ q : Quaternion ℝ, ‖q‖ = 1 → |c.jointStiff| * ‖c.jointDev q‖ < 1)
    (hl : ∀ q : Quaternion ℝ, ‖q‖ = 1 → |c.limitStiff| * ‖c.limitDev q‖ < 1) :
    ∀ (n : ℕ) (q : Quaternion ℝ), ‖q‖ = 1 → ‖projLoopRot c n q‖ = 1 := by
  intro n
  induction n with
  | zero => intro q hq; exact hq
  | succ n ih =>
    intro q hq
    show ‖projLoopRot c n (projIterRot c q)‖ = 1
    exact ih _ (projIterRot_unit c hj hl q hq)

/-- The complete orientation treatment of a step (free-motion update, then
every angular pass of the projection loop) outputs a unit quaternion. -/
theorem stepRot_unit (dt : ℝ) (c : AngConstraint) (iters : ℕ)
    (omega q : Quaternion ℝ) (h0 : q + (dt / 2) • (omega * q) ≠ 0)
    (hj : ∀ r : Quaternion ℝ, ‖r‖ = 1 → |c.jointStiff| * ‖c.jointDev r‖ < 1)
    (hl : ∀ r : Quaternion ℝ, ‖r‖ = 1 → |c.limitStiff| * ‖c.limitDev r‖ < 1) :
    ‖stepRot dt c iters omega q‖ = 1 :=
  projLoopRot_unit c hj hl iters _ (orientationUpdate_norm dt omega q h0)

/-- C4: every State produced by step has unit-norm link orientation
quaternions in its x field (exactly unit, hence within the 1e-6 tolerance),
for any descriptor, prior state and velocities: the orientation of each link
passes through the free-motion integration AND through the joint-angular and
angular-limit passes of every iteration of the constraint-projection loop,
and each stage renormalizes, so the invariant is preserved by every step
call.  The hypotheses say that no free-motion update degenerates to the zero
quaternion and that no scaled angular correction is large enough to cancel a
unit orientation. -/
theorem c4_unit_quaternions (sys : QSys) (s : QState)
    (hj : ∀ q : Quaternion ℝ, ‖q‖ = 1 →
      |sys.constraints.jointStiff| * ‖sys.constraints.jointDev q‖ < 1)
    (hl : ∀ q : Quaternion ℝ, ‖q‖ = 1 →
      |sys.constraints.limitStiff| * ‖sys.constraints.limitDev q‖ < 1)
    (h : ∀ t ∈ s.x, ∀ v ∈ s.xd,
      t.rot + (sys.dt / 2) • (v.ang * t.rot) ≠ 0) :
    ∀ t2 ∈ (stepQ sys s).x, ‖t2.rot‖ = 1 ∧ |‖t2.rot‖ - 1| ≤ 1 / 1000000 := by
  intro t2 ht2
  obtain ⟨t, v, ht, hv, he⟩ := mem_zipWith (advanceLink sys) s.x s.xd t2 ht2
  subst he
  have hrot : (advanceLink sys t v).rot
      = stepRot sys.dt sys.constraints sys.solverIterations v.ang t.rot := rfl
  have hnorm := stepRot_unit sys.dt sys.constraints sys.solverIterations
    v.ang t.rot (h t ht v hv) hj hl
  rw [hrot, hnorm]
  norm_num

/-- C4 witness: the orientation invariant applied to the concrete descriptor
and one-link resting state, with every hypothesis discharged there. -/
theorem c4_unit_quaternions_witness :
    (∀ q : Quaternion ℝ, ‖q‖ = 1 →
      |qSysW.constraints.jointStiff| * ‖qSysW.constraints.jointDev q‖ < 1) ∧
    (∀ q : Quaternion ℝ, ‖q‖ = 1 →
      |qSysW.constraints.limitStiff| * ‖qSysW.constraints.limitDev q‖ < 1) ∧
    (∀ t ∈ qStateW.x, ∀ v ∈ qStateW.xd,
      t.rot + (qSysW.dt / 2) • (v.ang * t.rot) ≠ 0) ∧
    (∀ t2 ∈ (stepQ qSysW qStateW).x,
      ‖t2.rot‖ = 1 ∧ |‖t2.rot‖ - 1| ≤ 1 / 1000000) := by
  have hj : ∀ q : Quaternion ℝ, ‖q‖ = 1 →
      |qSysW.constraints.jointStiff| * ‖qSysW.constraints.jointDev q‖ < 1 := by
    intro q hq
    simp [qSysW]
  have hl : ∀ q : Quaternion ℝ, ‖q‖ = 1 →
      |qSysW.constraints.limitStiff| * ‖qSysW.constraints.limitDev q‖ < 1 := by
    intro q hq
    simp [qSysW]
  have h : ∀ t ∈ qStateW.x, ∀ v ∈ qStateW.xd,
      t.rot + (qSysW.dt / 2) • (v.ang * t.rot) ≠ 0 := by
    intro t ht v hv
    simp only [qStateW, qIdentity, qRest, List.mem_singleton] at ht hv
    subst ht
    subst hv
    simp [qSysW]
  exact ⟨hj, hl, h, c4_unit_quaternions qSysW qStateW hj hl h⟩

/-- C10: a policy made with deterministic=True depends only on the
observations and the policy parameters, never on key_sample: any two PRNG
keys give the same result, the action is the mode of the distribution over
the network output, and the extras dictionary is empty. -/
theorem c10_deterministic_policy {P O L A : Type}
    (net : ESNetworks P O L A) (params : P) (observations : O) (k1 k2 : ℕ) :
    make_inference_fn net params true observations k1
        = make_inference_fn net params true observations k2 ∧
    (make_inference_fn net params true observations k1).1
        = net.parametric_action_distribution.mode
            (net.policy_network.apply params observations) ∧
    (make_inference_fn net params true observations k1).2 = [] :=
  ⟨rfl, rfl, rfl⟩
